import Mathlib

/-!
A shallow embedding of `koa-convert` (src/index.js) in Lean 4, together with
theorems checking the natural-language specification against the code.

Conventions of the embedding:
* JS strings are modelled as `List Char`; all string operations used by the
  source (`indexOf(p) === 0`, `replace(p, '')` under that guard, `slice(-1)`,
  `s[0]`, `|| '/'`) are translated to the corresponding list operations.
* JS promises in this code base are used strictly sequentially (one chain per
  request), so a settled promise is modelled by an `Outcome` value and
  promise-returning callables by explicit state passing on the shared,
  mutable `ctx` object.
* Thrown JS errors from the synchronous validation code are modelled with
  `Except`.
-/

namespace KoaConvert

/-- A request path, a JS string modelled as a list of characters. -/
abbrev Path := List Char

/-- The settlement of a JS promise: resolved with a value, or rejected with an
error (identified by its message, which is all this code base ever puts in
its errors). -/
inductive Outcome (α : Type) : Type
  | resolved (v : α) : Outcome α
  | rejected (e : String) : Outcome α
  deriving Repr, DecidableEq

/-- The JS values that flow through promise resolutions in this code base. -/
inductive JsValue : Type
  | undef
  | vstr (s : String)
  | vnat (n : Nat)
  deriving Repr, DecidableEq

/-!
## `match` — src/index.js lines 127-137 (inner function of `mount`)

```js
function match (path) {
  if (path.indexOf(prefix) !== 0) return false
  var newPath = path.replace(prefix, '') || '/'
  if (trailingSlash) return newPath
  if (newPath[0] !== '/') return false
  return newPath
}
```
with `trailingSlash = prefix.slice(-1) === '/'` (line 92).

`path.indexOf(pfx) === 0` holds exactly when `pfx` is a prefix of `path`;
under that guard `path.replace(pfx, '')` removes the first occurrence of
`pfx`, which is the one at offset 0, i.e. it drops `pfx.length` characters.
`'' || '/'` yields `'/'`.  `newPath[0] !== '/'` compares the first character
(an absent character, `undefined`, compares unequal to `'/'`).
-/

/-- The path-matching function of `mount`, returning the rewritten path or
`none` (JS `false`) on no match. -/
def matchPath (pfx : Path) (path : Path) : Option Path :=
  if ¬ pfx.isPrefixOf path then none
  else
    let newPath := if path.drop pfx.length = [] then ['/'] else path.drop pfx.length
    if pfx.getLast? = some '/' then some newPath
    else if newPath.head? ≠ some '/' then none
    else some newPath

/-- Modelled from the spec's own wording of the matching rules (for the
refinement comparison with `matchPath`): no match unless the path starts with
the prefix at offset 0; the remainder is the path with the prefix removed
from the front, an empty remainder treated as `/`; a prefix ending in `/`
accepts whenever it matched; otherwise accept only when the remainder starts
with `/`. -/
def matchSpec (pfx : Path) (path : Path) : Option Path :=
  if pfx.isPrefixOf path then
    let remainder := path.drop pfx.length
    let remainder := if remainder = [] then ['/'] else remainder
    if pfx.getLast? = some '/' then some remainder
    else if remainder.head? = some '/' then some remainder
    else none
  else none

example : matchPath "/images/".toList "/lkajsldkjf".toList = none := by decide
example : matchPath "/images".toList "/images".toList = some "/".toList := by decide
example : matchPath "/images/".toList "/images".toList = none := by decide
example : matchPath "/images/".toList "/images/asdf".toList = some "asdf".toList := by decide
example : matchPath "/images".toList "/imagesFoo".toList = none := by decide

/-!
## The adapters — src/index.js lines 9-61

A middleware value is a JS function object.  The structural facts the
adapters inspect or set are: whether `mw.constructor.name === 'GeneratorFunction'`,
the declared `mw.name`, and the ad-hoc `mw._name` attribute (absent, i.e.
`undefined`, unless someone assigned it).  `attrName = some s` models an
assigned `_name` (possibly the empty string); `none` models an absent one.
-/

/-- A JS middleware function object, by the structural facts `convert` and
`convert.back` read and write. -/
structure Mw : Type where
  /-- whether `mw.constructor.name === 'GeneratorFunction'` -/
  isGenerator : Bool
  /-- the declared function name `mw.name` -/
  name : String
  /-- the `mw._name` attribute; `none` = `undefined` -/
  attrName : Option String
  deriving Repr, DecidableEq

/-- JS `a || b` for a possibly-absent string attribute `a`: `undefined` and
the empty string are falsy, so both fall through to `b`. -/
def jsOrStr (a : Option String) (b : String) : String :=
  match a with
  | none => b
  | some s => if s = "" then b else s

/-- An arbitrary JS value passed to an adapter: a function, or a
non-function (carrying its `typeof` string). -/
inductive JsArg : Type
  | fn (m : Mw)
  | nonFn (tyName : String)
  deriving Repr, DecidableEq

/-- The errors the adapters throw synchronously. -/
inductive JsError : Type
  | typeError (msg : String)
  deriving Repr, DecidableEq

/-- Body of `convert` past the `typeof` check — src/index.js lines 13-21:
non-generators are returned unchanged; a generator is wrapped in a new plain
function `converted` (whose declared name is the binding name `converted`),
and `converted._name = mw._name || mw.name`. -/
def convertFn (mw : Mw) : Mw :=
  if mw.isGenerator = false then mw
  else { isGenerator := false, name := "converted",
         attrName := some (jsOrStr mw.attrName mw.name) }

/-- Full `convert (mw)` — src/index.js lines 9-22, including the
`typeof mw !== 'function'` fail-fast check. -/
def convert (arg : JsArg) : Except JsError Mw :=
  match arg with
  | .nonFn _ => .error (.typeError "middleware must be a function")
  | .fn mw => .ok (convertFn mw)

/-- Body of `convert.back` past the `typeof` check — src/index.js lines 41-60:
generators are returned unchanged; a non-generator is wrapped in a new
generator function `converted`, and `converted._name = mw._name || mw.name`. -/
def convertBackFn (mw : Mw) : Mw :=
  if mw.isGenerator = true then mw
  else { isGenerator := true, name := "converted",
         attrName := some (jsOrStr mw.attrName mw.name) }

/-- Full `convert.back (mw)` — src/index.js lines 37-61, including the
`typeof mw !== 'function'` fail-fast check. -/
def convertBack (arg : JsArg) : Except JsError Mw :=
  match arg with
  | .nonFn _ => .error (.typeError "middleware must be a function")
  | .fn mw => .ok (convertBackFn mw)

/-- The diagnostic `_name` attribute of an adapter's result. -/
def resultAttrName (r : Except JsError Mw) : Option String :=
  match r with
  | .ok w => w.attrName
  | .error _ => none

/-!
## `convert.compose` — src/index.js lines 30-35

```js
convert.compose = function (arr) {
  if (!Array.isArray(arr)) {
    arr = Array.from(arguments)
  }
  return compose(arr.map(convert))
}
```

`compose` itself is the external `koa-compose` package; the embedding takes
it as a parameter `composeExt`.  The JS argument list is a list of values
each of which is an `Array` or a plain value; `arr` is the first argument
(`undefined` when the list is empty, and `Array.isArray(undefined)` is
`false`).
-/

/-- One argument of a JS call to `convert.compose`: an `Array` of values, or
a single non-array value. -/
inductive ComposeArg : Type
  | arrA (elems : List JsArg)
  | valA (v : JsArg)

/-- What an argument contributes to `Array.from(arguments)` as seen by
`convert`: a non-array argument is itself; an array argument is a
non-function of `typeof` `"object"`. -/
def composeArgVal (a : ComposeArg) : JsArg :=
  match a with
  | .valA v => v
  | .arrA _ => .nonFn "object"

/-- JS `arr.map(convert)`: left to right, the first thrown `TypeError`
propagates out of the `map`. -/
def mapConvert : List JsArg → Except JsError (List Mw)
  | [] => .ok []
  | a :: rest =>
    match convert a with
    | .error e => .error e
    | .ok m =>
      match mapConvert rest with
      | .error e => .error e
      | .ok ms => .ok (m :: ms)

/-- Entry point `convert.compose(...)` — src/index.js lines 30-35, parametric in the
external `koa-compose` implementation `composeExt`. -/
def convertCompose {γ : Type} (composeExt : List Mw → γ) (args : List ComposeArg) :
    Except JsError γ :=
  let arr : List JsArg :=
    match args with
    | (.arrA l) :: _ => l
    | _ => args.map composeArgVal
  match mapConvert arr with
  | .error e => .error e
  | .ok ms => .ok (composeExt ms)

/-!
## The mounted callable — src/index.js lines 94-110

```js
return function (ctx, upstream) {
  var prev = ctx.path
  var newPath = match(prev)
  if (!newPath) return upstream()

  ctx.mountPath = prefix
  ctx.path = newPath

  return Promise.resolve(downstream(ctx, () => {
    ctx.path = prev
    return upstream().then(() => {
      ctx.path = newPath
    })
  })).then(() => {
    ctx.path = prev
  })
}
```

The promise chain here is strictly sequential, so it is embedded by explicit
state passing on the shared `ctx` record.  A continuation (`upstream`, and
the arrow function handed to `downstream`) maps the current `ctx` state to
the final `ctx` state and the settlement of the promise it returns.  The
`downstream` callable may return a plain value or a promise (`RawRet`);
`Promise.resolve` adopts a promise and fulfils with a plain value.
`.then(f)` with no rejection handler runs `f` on fulfilment (here `f`
returns `undefined`, so the derived promise resolves with `undefined`) and
passes a rejection through untouched.
-/

/-- The mutable per-request context, restricted to the fields this code
touches; `data` stands for all externally-owned fields middlewares may
mutate. -/
structure Ctx : Type where
  path : Path
  mountPath : Option Path
  data : Nat
  deriving Repr, DecidableEq

/-- A zero-argument continuation returning a promise, as a state transformer
on `Ctx` paired with the promise's settlement. -/
abbrev Cont := Ctx → Ctx × Outcome JsValue

/-- The raw return value of the normalized target: a plain (non-promise)
value, or a promise with its settlement. -/
inductive RawRet : Type
  | plain (v : JsValue)
  | prom (o : Outcome JsValue)
  deriving Repr, DecidableEq

/-- A modern middleware callable `(ctx, next) => ...`, as the target of
`mount`: given the context state and its continuation, it produces the final
context state and its raw return value. -/
abbrev Downstream := Ctx → Cont → Ctx × RawRet

/-- JS `Promise.resolve(x)`: adopt a promise, fulfil with a plain value. -/
def promiseResolve (r : RawRet) : Outcome JsValue :=
  match r with
  | .plain v => .resolved v
  | .prom o => o

/-- The arrow-function continuation `mount` hands to `downstream`
(src/index.js lines 102-106): set `ctx.path = prev`, call `upstream()`, and
`.then` re-set `ctx.path = newPath` on fulfilment (resolving `undefined`),
passing a rejection through. -/
def mountCont (prev newPath : Path) (upstream : Cont) : Cont := fun c =>
  let q := upstream { c with path := prev }
  match q.2 with
  | .resolved _ => ({ q.1 with path := newPath }, Outcome.resolved JsValue.undef)
  | .rejected e => (q.1, Outcome.rejected e)

/-- The callable returned by `mount(prefix, app)` when `prefix ≠ "/"` —
src/index.js lines 94-110.  (`prev` is `ctx.path` at entry; the single JS
call to `downstream` appears below through its two projections, which denote
the same value in this pure embedding.) -/
def mounted (pfx : Path) (downstream : Downstream) (ctx : Ctx) (upstream : Cont) :
    Ctx × Outcome JsValue :=
  match matchPath pfx ctx.path with
  | none => upstream ctx
  | some newPath =>
    match promiseResolve (downstream { ctx with mountPath := some pfx, path := newPath }
        (mountCont ctx.path newPath upstream)).2 with
    | .resolved _ =>
      ({ (downstream { ctx with mountPath := some pfx, path := newPath }
            (mountCont ctx.path newPath upstream)).1 with path := ctx.path },
        Outcome.resolved JsValue.undef)
    | .rejected e =>
      ((downstream { ctx with mountPath := some pfx, path := newPath }
          (mountCont ctx.path newPath upstream)).1, Outcome.rejected e)

/-- Modelled from the spec's own wording of the continuation the target
receives (for the refinement comparison with `mountCont`): it (a) restores
`context.path = previousPath` before calling `upstreamContinuation()`,
(b) re-sets `context.path = newPath` after `upstreamContinuation()`
resolves, and propagates `upstreamContinuation`'s rejection if any. -/
def contFromSpec (previousPath newPath : Path) (upstreamContinuation : Cont) : Cont :=
  fun c =>
    let q := upstreamContinuation { c with path := previousPath }
    match q.2 with
    | .resolved _ => ({ q.1 with path := newPath }, Outcome.resolved JsValue.undef)
    | .rejected e => (q.1, Outcome.rejected e)

/-!
## The behavior of `convert.back`'s wrapper — src/index.js lines 45-58

```js
const converted = function * (next) {
  let ctx = this
  let called = false
  yield Promise.resolve(mw(ctx, function () {
    if (called) {
      return Promise.reject(new Error('next() called multiple times'))
    }
    called = true
    return co.call(ctx, next)
  }))
}
```

The wrapped modern middleware `mw` interacts with the continuation it is
given only by calling it and observing the settlement of the promise it
returns; in between it may mutate the shared state.  That interaction is
captured by the free-monad-style `MwProg`: `ret o` finishes with settlement
`o`; `eff f k` mutates the state and continues; `callNext k` calls the
continuation once and continues with its settlement.  `σ` is the external
state (the koa context and the downstream chain's world); `co.call(ctx, next)`
— driving the real downstream continuation to completion — is the external
state transformer `next`.  `runBack` runs such a program against the guarded
continuation of lines 49-57, threading the `called` flag and counting how
often the real downstream `next` is invoked.
-/

/-- The real downstream continuation (`co.call(ctx, next)`), as a state
transformer producing the settlement of its promise. -/
abbrev Next (σ : Type) := σ → σ × Outcome JsValue

/-- A modern middleware's interaction with its continuation: finish, mutate
state, or call the continuation and branch on its settlement. -/
inductive MwProg (σ : Type) : Type
  | ret (o : Outcome JsValue)
  | eff (f : σ → σ) (k : MwProg σ)
  | callNext (k : Outcome JsValue → MwProg σ)

/-- Running a modern middleware's interaction `p` against the guarded
continuation of `convert.back` (src/index.js lines 49-57): with the `called`
flag set, a call gets an immediately-rejected promise
(`next() called multiple times`) and the real `next` is not touched;
otherwise the flag is set and the call delegates to the real `next`.
Returns the final state, the middleware's settlement, and the number of
times the real `next` was invoked (instrumentation). -/
def runBack {σ : Type} (next : Next σ) :
    MwProg σ → Bool → σ → Nat → σ × Outcome JsValue × Nat
  | .ret o, _, s, n => (s, o, n)
  | .eff f k, called, s, n => runBack next k called (f s) n
  | .callNext k, called, s, n =>
    if called then
      runBack next (k (Outcome.rejected "next() called multiple times")) called s n
    else
      let p := next s
      runBack next (k p.2) true p.1 (n + 1)

/-!
## Theorems
-/

/-- C3: for every prefix string starting with `/` and every request path,
the mount matching function behaves as specified — no match unless the path
starts with the prefix at offset 0; the remainder is the path with the
prefix removed from the front, empty treated as `/`; a trailing-slash prefix
accepts whenever it matched; otherwise the match is accepted only when the
remainder starts with `/` — so `/images` matches `/images` giving `/` and
`/images/x` giving `/x`, but does not match `/imagesFoo`. -/
theorem match_follows_spec (pfx : Path) (hpfx : pfx.head? = some '/') :
    (∀ path, matchPath pfx path = matchSpec pfx path) ∧
    matchPath "/images".toList "/images".toList = some "/".toList ∧
    matchPath "/images".toList "/images/x".toList = some "/x".toList ∧
    matchPath "/images".toList "/imagesFoo".toList = none := by
  refine ⟨?_, by decide, by decide, by decide⟩
  intro path
  unfold matchPath matchSpec
  by_cases hp : pfx.isPrefixOf path
  · simp only [hp, not_true_eq_false, if_false, if_true, Bool.not_true]
    by_cases ht : pfx.getLast? = some '/'
    · simp [ht]
    · simp only [ht, if_false]
      by_cases hh : (if path.drop pfx.length = [] then ['/'] else path.drop pfx.length).head? = some '/'
      · simp [hh]
      · simp [hh]
  · simp [hp]

/-- C3 witness: the spec/code agreement applied at a concrete prefix and
path. -/
theorem match_follows_spec_witness :
    matchPath "/images".toList "/x/y".toList = matchSpec "/images".toList "/x/y".toList :=
  (match_follows_spec "/images".toList (by decide)).1 "/x/y".toList

/-- C4: the adapters are identity on inputs already in the target style —
`convert` returns a non-generator callable itself, and `convert.back`
returns a generator function itself. -/
theorem convert_identity_on_target_style :
    (∀ m : Mw, m.isGenerator = false → convert (JsArg.fn m) = Except.ok m) ∧
    (∀ m : Mw, m.isGenerator = true → convertBack (JsArg.fn m) = Except.ok m) := by
  constructor
  · intro m h
    simp [convert, convertFn, h]
  · intro m h
    simp [convertBack, convertBackFn, h]

/-- C4 witness: the identity pass-through at concrete middlewares. -/
theorem convert_identity_on_target_style_witness :
    convert (JsArg.fn ⟨false, "m", none⟩) = Except.ok ⟨false, "m", none⟩ ∧
    convertBack (JsArg.fn ⟨true, "g", none⟩) = Except.ok ⟨true, "g", none⟩ :=
  ⟨convert_identity_on_target_style.1 ⟨false, "m", none⟩ rfl,
   convert_identity_on_target_style.2 ⟨true, "g", none⟩ rfl⟩

/-- C6: for every function that is actually wrapped, the wrapper of
`convert` and of `convert.back` carries a diagnostic `_name` equal to the
function's `_name` override when one is set (set to a truthy, i.e.
non-empty, string — JS `mw._name || mw.name`), otherwise its declared name;
in particular converting a legacy generator named `testing` yields a wrapper
whose diagnostic name is `"testing"`. -/
theorem name_propagation :
    (∀ (m : Mw) (s : String), m.isGenerator = true → m.attrName = some s → s ≠ "" →
      resultAttrName (convert (JsArg.fn m)) = some s) ∧
    (∀ m : Mw, m.isGenerator = true → m.attrName = none →
      resultAttrName (convert (JsArg.fn m)) = some m.name) ∧
    (∀ (m : Mw) (s : String), m.isGenerator = false → m.attrName = some s → s ≠ "" →
      resultAttrName (convertBack (JsArg.fn m)) = some s) ∧
    (∀ m : Mw, m.isGenerator = false → m.attrName = none →
      resultAttrName (convertBack (JsArg.fn m)) = some m.name) ∧
    resultAttrName (convert (JsArg.fn ⟨true, "testing", none⟩)) = some "testing" := by
  refine ⟨?_, ?_, ?_, ?_, by decide⟩
  · intro m s hg ha hs
    simp [resultAttrName, convert, convertFn, hg, jsOrStr, ha, hs]
  · intro m hg ha
    simp [resultAttrName, convert, convertFn, hg, jsOrStr, ha]
  · intro m s hg ha hs
    simp [resultAttrName, convertBack, convertBackFn, hg, jsOrStr, ha, hs]
  · intro m hg ha
    simp [resultAttrName, convertBack, convertBackFn, hg, jsOrStr, ha]

/-- C6 witness: name propagation applied at concrete wrapped functions. -/
theorem name_propagation_witness :
    resultAttrName (convert (JsArg.fn ⟨true, "g", some "override"⟩)) = some "override" ∧
    resultAttrName (convertBack (JsArg.fn ⟨false, "testing", none⟩)) = some "testing" :=
  ⟨name_propagation.1 ⟨true, "g", some "override"⟩ "override" rfl rfl (by decide),
   name_propagation.2.2.2.1 ⟨false, "testing", none⟩ rfl rfl⟩

/-- C7: for every non-callable input, `convert` and `convert.back` fail fast
by throwing a `TypeError` (`middleware must be a function`), producing no
wrapper. -/
theorem non_callable_fails_fast (tyName : String) :
    convert (JsArg.nonFn tyName) =
      Except.error (JsError.typeError "middleware must be a function") ∧
    convertBack (JsArg.nonFn tyName) =
      Except.error (JsError.typeError "middleware must be a function") :=
  ⟨rfl, rfl⟩

/-- Converting a list of actual functions never throws and applies the
generator-wrapping conversion elementwise. -/
theorem mapConvert_fns (ms : List Mw) :
    mapConvert (ms.map JsArg.fn) = Except.ok (ms.map convertFn) := by
  induction ms with
  | nil => rfl
  | cons m rest ih => simp [mapConvert, convert, ih]

/-- C8: the two calling conventions of the composer are semantically
equivalent — for every finite sequence of middlewares, the variadic call
`compose(a, b, c, ...)` and the single-array call `compose([a, b, c, ...])`
produce the same result: every element converted to modern style and handed
to the same external composition. -/
theorem compose_calling_conventions_equiv {γ : Type} (composeExt : List Mw → γ)
    (ms : List Mw) :
    convertCompose composeExt (ms.map (fun m => ComposeArg.valA (JsArg.fn m))) =
      convertCompose composeExt [ComposeArg.arrA (ms.map JsArg.fn)] ∧
    convertCompose composeExt [ComposeArg.arrA (ms.map JsArg.fn)] =
      Except.ok (composeExt (ms.map convertFn)) := by
  have harr : convertCompose composeExt [ComposeArg.arrA (ms.map JsArg.fn)] =
      Except.ok (composeExt (ms.map convertFn)) := by
    simp [convertCompose, mapConvert_fns]
  refine ⟨?_, harr⟩
  rw [harr]
  cases ms with
  | nil => rfl
  | cons m rest =>
    show (match mapConvert (((m :: rest).map fun m => ComposeArg.valA (JsArg.fn m)).map composeArgVal) with
          | .error e => Except.error e
          | .ok l => Except.ok (composeExt l)) = _
    rw [List.map_map]
    have : (composeArgVal ∘ fun m => ComposeArg.valA (JsArg.fn m)) = JsArg.fn := rfl
    rw [this, mapConvert_fns]

/-- C5: on a matching invocation, the mounted callable sets `ctx.path` to
the remainder path and `ctx.mountPath` to the prefix before the target runs,
and hands the target exactly the spec-described continuation — one that
restores `ctx.path` to the pre-mount value before calling the upstream
continuation, re-sets `ctx.path` to the mounted path after the upstream
continuation resolves, and propagates the upstream continuation's rejection. -/
theorem mount_on_match_spec (pfx : Path) (downstream : Downstream) (ctx : Ctx)
    (upstream : Cont) (newPath : Path)
    (h : matchPath pfx ctx.path = some newPath) :
    mounted pfx downstream ctx upstream =
      (let r := downstream { ctx with mountPath := some pfx, path := newPath }
                  (contFromSpec ctx.path newPath upstream)
       match promiseResolve r.2 with
       | .resolved _ => ({ r.1 with path := ctx.path }, Outcome.resolved JsValue.undef)
       | .rejected e => (r.1, Outcome.rejected e)) := by
  simp only [mounted, h]
  rfl

/-- C5 witness: the on-match behavior at a concrete prefix, context, target
and upstream continuation. -/
theorem mount_on_match_spec_witness :
    mounted "/foo".toList (fun c _ => (c, RawRet.prom (Outcome.resolved JsValue.undef)))
        ⟨"/foo/a".toList, none, 0⟩ (fun c => (c, Outcome.resolved JsValue.undef)) =
      (let r := (fun (c : Ctx) (_ : Cont) => (c, RawRet.prom (Outcome.resolved JsValue.undef)))
                  { (⟨"/foo/a".toList, none, 0⟩ : Ctx) with
                      mountPath := some "/foo".toList, path := "/a".toList }
                  (contFromSpec "/foo/a".toList "/a".toList
                    (fun c => (c, Outcome.resolved JsValue.undef)))
       match promiseResolve r.2 with
       | .resolved _ => ({ r.1 with path := "/foo/a".toList }, Outcome.resolved JsValue.undef)
       | .rejected e => (r.1, Outcome.rejected e)) :=
  mount_on_match_spec "/foo".toList
    (fun c _ => (c, RawRet.prom (Outcome.resolved JsValue.undef)))
    ⟨"/foo/a".toList, none, 0⟩ (fun c => (c, Outcome.resolved JsValue.undef))
    "/a".toList (by decide)

/-- C1 counterexample: a target whose promise rejects leaves `ctx.path` at
the mounted path — at prefix `/foo`, pre-call path `/foo/bar`, and a target
that rejects with `boom` without calling its continuation, the mounted
callable's promise settles (rejected `boom`) with `ctx.path = /bar`, not the
pre-call `/foo/bar`. -/
theorem mount_restore_on_reject_cex :
    matchPath "/foo".toList "/foo/bar".toList = some "/bar".toList ∧
    (mounted "/foo".toList (fun c _ => (c, RawRet.prom (Outcome.rejected "boom")))
        ⟨"/foo/bar".toList, none, 0⟩ (fun c => (c, Outcome.resolved JsValue.undef))).2 =
      Outcome.rejected "boom" ∧
    (mounted "/foo".toList (fun c _ => (c, RawRet.prom (Outcome.rejected "boom")))
        ⟨"/foo/bar".toList, none, 0⟩ (fun c => (c, Outcome.resolved JsValue.undef))).1.path =
      "/bar".toList := by
  refine ⟨by decide, rfl, rfl⟩

/-- C1 amended: on a matching invocation with prefix other than `/`,
`ctx.path` is restored to its pre-call value before the mounted callable's
promise settles when the target's promise resolves; when the target's
promise rejects, the rejection propagates unchanged but the mounted callable
performs no restoration — the context is left exactly as the target left it
(the mounted path, unless the target itself changed it). -/
theorem mount_path_restoration_amended (pfx : Path) (downstream : Downstream)
    (ctx : Ctx) (upstream : Cont) (newPath : Path)
    (hpfx : pfx ≠ "/".toList)
    (h : matchPath pfx ctx.path = some newPath) :
    (∀ v : JsValue,
      promiseResolve (downstream { ctx with mountPath := some pfx, path := newPath }
          (mountCont ctx.path newPath upstream)).2 = Outcome.resolved v →
        (mounted pfx downstream ctx upstream).1.path = ctx.path ∧
        (mounted pfx downstream ctx upstream).2 = Outcome.resolved JsValue.undef) ∧
    (∀ e : String,
      promiseResolve (downstream { ctx with mountPath := some pfx, path := newPath }
          (mountCont ctx.path newPath upstream)).2 = Outcome.rejected e →
        mounted pfx downstream ctx upstream =
          ((downstream { ctx with mountPath := some pfx, path := newPath }
              (mountCont ctx.path newPath upstream)).1, Outcome.rejected e)) := by
  simp only [mounted, h]
  constructor
  · intro v hv
    rw [hv]
    exact ⟨rfl, rfl⟩
  · intro e he
    rw [he]

/-- C1 amended witness: both exit paths at concrete inputs — a resolving
target restores the path, a rejecting one does not. -/
theorem mount_path_restoration_amended_witness :
    (mounted "/foo".toList (fun c _ => (c, RawRet.prom (Outcome.resolved JsValue.undef)))
        ⟨"/foo/a".toList, none, 0⟩ (fun c => (c, Outcome.resolved JsValue.undef))).1.path =
      "/foo/a".toList ∧
    mounted "/foo".toList (fun c _ => (c, RawRet.prom (Outcome.rejected "boom")))
        ⟨"/foo/a".toList, none, 0⟩ (fun c => (c, Outcome.resolved JsValue.undef)) =
      ({ path := "/a".toList, mountPath := some "/foo".toList, data := 0 },
        Outcome.rejected "boom") :=
  ⟨((mount_path_restoration_amended "/foo".toList
      (fun c _ => (c, RawRet.prom (Outcome.resolved JsValue.undef)))
      ⟨"/foo/a".toList, none, 0⟩ (fun c => (c, Outcome.resolved JsValue.undef))
      "/a".toList (by decide) (by decide)).1 JsValue.undef rfl).1,
   (mount_path_restoration_amended "/foo".toList
      (fun c _ => (c, RawRet.prom (Outcome.rejected "boom")))
      ⟨"/foo/a".toList, none, 0⟩ (fun c => (c, Outcome.resolved JsValue.undef))
      "/a".toList (by decide) (by decide)).2 "boom" rfl⟩

/-- C9: after a matching invocation of a mounted callable (prefix other than
`/`) settles, `ctx.mountPath` remains set to the prefix on both exit paths —
unlike `ctx.path`, the mounted callable never restores it — provided the
target itself left `ctx.mountPath` as it found it. -/
theorem mountPath_persists (pfx : Path) (downstream : Downstream) (ctx : Ctx)
    (upstream : Cont) (newPath : Path)
    (hpfx : pfx ≠ "/".toList)
    (h : matchPath pfx ctx.path = some newPath)
    (hkeep : (downstream { ctx with mountPath := some pfx, path := newPath }
        (mountCont ctx.path newPath upstream)).1.mountPath = some pfx) :
    (mounted pfx downstream ctx upstream).1.mountPath = some pfx := by
  simp only [mounted, h]
  cases hq : promiseResolve (downstream { ctx with mountPath := some pfx, path := newPath }
      (mountCont ctx.path newPath upstream)).2 with
  | resolved v => simpa [hq] using hkeep
  | rejected e => simpa [hq] using hkeep

/-- C9 witness: a matching invocation at concrete inputs whose pre-call
`mountPath` was absent ends with `mountPath` equal to the prefix. -/
theorem mountPath_persists_witness :
    (mounted "/foo".toList (fun c _ => (c, RawRet.prom (Outcome.rejected "boom")))
        ⟨"/foo/a".toList, none, 0⟩ (fun c => (c, Outcome.resolved JsValue.undef))).1.mountPath =
      some "/foo".toList :=
  mountPath_persists "/foo".toList (fun c _ => (c, RawRet.prom (Outcome.rejected "boom")))
    ⟨"/foo/a".toList, none, 0⟩ (fun c => (c, Outcome.resolved JsValue.undef)) "/a".toList
    (by decide) (by decide) rfl

/-- C10: on a matching invocation, the mounted callable yields a promise
even when the target returns a plain (non-promise) value, and on success
that promise resolves to `undefined` — the target's resolution value, plain
or fulfilled, is discarded. -/
theorem mounted_returns_promise_discarding_value (pfx : Path) (downstream : Downstream)
    (ctx : Ctx) (upstream : Cont) (newPath : Path) (c2 : Ctx) (v : JsValue)
    (h : matchPath pfx ctx.path = some newPath)
    (hd : downstream { ctx with mountPath := some pfx, path := newPath }
            (mountCont ctx.path newPath upstream) = (c2, RawRet.plain v) ∨
          downstream { ctx with mountPath := some pfx, path := newPath }
            (mountCont ctx.path newPath upstream) = (c2, RawRet.prom (Outcome.resolved v))) :
    mounted pfx downstream ctx upstream =
      ({ c2 with path := ctx.path }, Outcome.resolved JsValue.undef) := by
  simp only [mounted, h]
  rcases hd with hd | hd <;> rw [hd] <;> rfl

/-- C10 witness: a target returning the plain number `7` — not a promise —
still yields a promise from the mounted callable, resolved to `undefined`. -/
theorem mounted_returns_promise_discarding_value_witness :
    mounted "/foo".toList (fun c _ => (c, RawRet.plain (JsValue.vnat 7)))
        ⟨"/foo/a".toList, none, 0⟩ (fun c => (c, Outcome.resolved JsValue.undef)) =
      ({ path := "/foo/a".toList, mountPath := some "/foo".toList, data := 0 },
        Outcome.resolved JsValue.undef) :=
  mounted_returns_promise_discarding_value "/foo".toList
    (fun c _ => (c, RawRet.plain (JsValue.vnat 7)))
    ⟨"/foo/a".toList, none, 0⟩ (fun c => (c, Outcome.resolved JsValue.undef))
    "/a".toList ⟨"/a".toList, some "/foo".toList, 0⟩ (JsValue.vnat 7)
    (by decide) (Or.inl rfl)

/-- With the `called` flag already set, a run of the guarded continuation
never invokes the real downstream `next` again: the invocation count is
unchanged. -/
theorem runBack_called_count {σ : Type} (next : Next σ) (p : MwProg σ) :
    ∀ (s : σ) (n : Nat), (runBack next p true s n).2.2 = n := by
  induction p with
  | ret o => intro s n; rfl
  | eff f k ih => intro s n; exact ih (f s) n
  | callNext k ih =>
    intro s n
    simpa [runBack] using ih (Outcome.rejected "next() called multiple times") s n

/-- C2: for every modern middleware wrapped by `convert.back` that calls the
continuation it was given twice, the first call delegates to the real
downstream continuation with its effects fully applied, and the second call
returns a rejected promise carrying `next() called multiple times`, touching
neither the state nor the downstream; and over every possible interaction,
the real downstream continuation is invoked at most once. -/
theorem back_next_guard {σ : Type} (next : Next σ) :
    (∀ (s : σ) (g : Outcome JsValue → Outcome JsValue → MwProg σ),
      runBack next (MwProg.callNext fun o1 => MwProg.callNext fun o2 => g o1 o2) false s 0 =
        runBack next (g (next s).2 (Outcome.rejected "next() called multiple times"))
          true (next s).1 1) ∧
    (∀ (p : MwProg σ) (s : σ) (n : Nat), (runBack next p true s n).2.2 = n) ∧
    (∀ (p : MwProg σ) (s : σ), (runBack next p false s 0).2.2 ≤ 1) := by
  refine ⟨fun s g => rfl, fun p s n => runBack_called_count next p s n, ?_⟩
  intro p
  induction p with
  | ret o => intro s; exact Nat.zero_le 1
  | eff f k ih => intro s; exact ih (f s)
  | callNext k ih =>
    intro s
    simp only [runBack, if_false, Bool.false_eq_true]
    exact Nat.le_of_eq (runBack_called_count next _ _ _)

end KoaConvert
